import Mathlib

/-!
Verification of the va-ddc data-driven-content helper library
(`src/content.ts`) against its natural-language specification.

The TypeScript module is shallowly embedded: every exported function is
translated to an executable Lean definition over an explicit model of the
message object.  JavaScript strings are Lean `String`s manipulated through
list-of-character helpers (so that every operation reduces in the kernel),
JavaScript cells (`string | number | Date`) are the inductive `Cell`, and
the host environment pieces the module touches (the `Date` string
constructor, `setTimeout`/`clearTimeout`, DOM event dispatch) are modelled
by small explicit definitions documented at their declaration sites.
-/

set_option autoImplicit false

/-- A calendar date as produced by a successful `new Date(string)` parse.
Only the year/month/day components matter to this module. -/
structure ISODate where
  year : Nat
  month : Nat
  day : Nat
deriving DecidableEq, Repr

/-- A cell of the tabular data: JavaScript `string | number | Date`.
`date none` is the invalid-date sentinel (the result of `new Date(s)` on an
unparsable string). -/
inductive Cell where
  | str : String → Cell
  | num : Int → Cell
  | date : Option ISODate → Cell
deriving DecidableEq, Repr

/-- The `VAFormat` interface of `content.ts`: an optional column format
descriptor with separate `name` and `formatString` fields. -/
structure VAFormat where
  name : String
  width : Option Int
  precision : Option Int
  formatString : String
deriving DecidableEq, Repr

/-- The `VAColumn` interface of `content.ts`. -/
structure VAColumn where
  name : String
  label : String
  type : String
  usage : Option String
  aggregation : Option String
  format : Option VAFormat
deriving DecidableEq, Repr

/-- A parameter value: `string | Array<string>`. -/
inductive VAValue where
  | str : String → VAValue
  | arr : List String → VAValue
deriving DecidableEq, Repr

/-- The `VAParameter` interface of `content.ts`. -/
structure VAParameter where
  label : String
  value : VAValue
deriving DecidableEq, Repr

/-- The `VAMessage` interface of `content.ts`: the table message handed to
the module by VA.  `data` is row-major. -/
structure VAMessage where
  version : String
  resultName : String
  rowCount : Int
  availableRowCount : Int
  data : List (List Cell)
  columns : List VAColumn
  parameters : Option (List VAParameter)
deriving DecidableEq, Repr

/-- The core alignment invariant of the data model: the column list's
length equals every row's length. -/
def aligned (msg : VAMessage) : Prop :=
  ∀ row ∈ msg.data, row.length = msg.columns.length

instance (msg : VAMessage) : Decidable (aligned msg) := by
  unfold aligned; infer_instance

/-! ### JavaScript string primitives

`content.ts` uses `String.prototype.trim` and `String.prototype.substr`.
They are modelled over the character list of the string so that every
concrete evaluation reduces. -/

/-- Whitespace for the purposes of `trim` (the inputs this module meets
only ever carry ASCII whitespace). -/
def isJsSpace (c : Char) : Bool :=
  c = ' ' || c = '\t' || c = '\n' || c = '\r'

/-- JavaScript `s.trim()`: strip whitespace from both ends. -/
def jsTrim (s : String) : String :=
  ⟨((s.toList.dropWhile isJsSpace).reverse.dropWhile isJsSpace).reverse⟩

/-- JavaScript `s.substr(start, len)` for non-negative arguments. -/
def jsSubstr (s : String) (start len : Nat) : String :=
  ⟨(s.toList.drop start).take len⟩

/-- JavaScript `s.substr(start)` for a non-negative argument: the suffix
from character offset `start`. -/
def jsSubstrFrom (s : String) (start : Nat) : String :=
  ⟨s.toList.drop start⟩

/-! ### The host date parser

`convertDateColumns` ends every cell conversion with `new Date(dateStr)`.
That constructor is host-environment code, not part of this repository. -/

/-- Value of a list of decimal digit characters, or `none` if the list is
empty or contains a non-digit. -/
def digitsToNat? (cs : List Char) : Option Nat :=
  match cs with
  | [] => none
  | _ =>
    cs.foldl
      (fun acc c =>
        match acc with
        | none => none
        | some n => if c.isDigit then some (n * 10 + (c.toNat - 48)) else none)
      (some 0)

/-- Split a character list on the dash character. -/
def splitDash : List Char → List (List Char)
  | [] => [[]]
  | c :: cs =>
    match splitDash cs with
    | [] => if c = '-' then [[], []] else [[c]]
    | g :: gs => if c = '-' then [] :: g :: gs else (c :: g) :: gs

/-- Modelled from the spec: the host `new Date(string)` constructor used by
`convertDateColumns` (the constructor itself is browser code, outside this
repository).  Per the spec it accepts ISO dashed dates; the model parses
exactly the ISO `YYYY-MM-DD` shape (four-digit year, two-digit month 01-12,
two-digit day 01-31) and maps every other string to the invalid-date
sentinel `none`. -/
def parseJSDate (s : String) : Option ISODate :=
  match splitDash s.toList with
  | [y, m, d] =>
    match digitsToNat? y, digitsToNat? m, digitsToNat? d with
    | some yv, some mv, some dv =>
      if y.length = 4 && m.length = 2 && d.length = 2
          && 1 ≤ mv && mv ≤ 12 && 1 ≤ dv && dv ≤ 31 then
        some ⟨yv, mv, dv⟩
      else
        none
    | _, _, _ => none
  | _ => none

/-! ### validateRoles -/

/-- The `optionalTypes` argument of `validateRoles`:
`string | Array<string> | null`. -/
inductive OptionalTypes where
  | null : OptionalTypes
  | one : String → OptionalTypes
  | list : List String → OptionalTypes
deriving DecidableEq, Repr

/-- The required-columns loop of `validateRoles`: the first
`expectedTypes.length` columns must match the expected types positionally
(the columns list is known to be at least that long when this runs). -/
def typesMatchReq : List VAColumn → List String → Bool
  | _, [] => true
  | [], _ :: _ => false
  | col :: cols, t :: ts => col.type == t && typesMatchReq cols ts

/-- The optional-columns loop of `validateRoles` for an array
`optionalTypes`: compare in lockstep and stop as soon as either list is
exhausted. -/
def typesMatchOpt : List VAColumn → List String → Bool
  | _, [] => true
  | [], _ => true
  | col :: cols, t :: ts => col.type == t && typesMatchOpt cols ts

/-- The optional-columns loop of `validateRoles` for a scalar
`optionalTypes`: every remaining column must have exactly that type. -/
def allTypeEq : List VAColumn → String → Bool
  | [], _ => true
  | col :: cols, t => col.type == t && allTypeEq cols t

/-- `validateRoles` from `content.ts`: check the required type prefix, then
the optional suffix according to the shape of `optionalTypes`. -/
def validateRoles (resultData : VAMessage) (expectedTypes : List String)
    (optionalTypes : OptionalTypes) : Bool :=
  let columnsInfo := resultData.columns
  let numCols := columnsInfo.length
  if numCols < expectedTypes.length then
    false
  else if !typesMatchReq columnsInfo expectedTypes then
    false
  else if numCols > expectedTypes.length then
    match optionalTypes with
    | .null => false
    | .list ts => typesMatchOpt (columnsInfo.drop expectedTypes.length) ts
    | .one t => allTypeEq (columnsInfo.drop expectedTypes.length) t
  else
    true

/-- A plain (non-brush, unformatted) column of a given type, for concrete
test messages. -/
def mkCol (ty : String) : VAColumn :=
  ⟨ty ++ "col", ty ++ "col", ty, none, none, none⟩

/-- A brush column, for concrete test messages. -/
def mkBrushCol : VAColumn :=
  ⟨"brushcol", "brushcol", "number", some "brush", none, none⟩

/-- A message with the given columns, rows and parameters, for concrete
test inputs. -/
def mkMsg (cols : List VAColumn) (rows : List (List Cell))
    (params : Option (List VAParameter)) : VAMessage :=
  ⟨"1", "dd91", 1, 1, rows, cols, params⟩

example :
    validateRoles (mkMsg [mkCol "number", mkCol "string"] [] none)
      ["number"] (.list ["string"]) = true := by decide

example :
    validateRoles (mkMsg [mkCol "number", mkCol "string", mkCol "date"] [] none)
      ["number"] (.list ["string"]) = true := by decide

/-! ### convertDateColumns

Errors thrown by the JavaScript code (calling `.trim()` on a value that is
not a string, or reading a property of `null`) are modelled with `Except`. -/

/-- The JavaScript error the modelled operations can throw. -/
inductive JSError where
  | typeError : JSError
deriving DecidableEq, Repr

/-- Boolean success test for an `Except` result. -/
def exceptIsOk {ε α : Type} : Except ε α → Bool
  | .ok _ => true
  | .error _ => false

/-- The `DDMMYY8` branch of `convertDateColumns`:
`dateStr.substr(6) ++ "-" ++ dateStr.substr(3, 2) ++ "-" ++ dateStr.substr(0, 2)`. -/
def ddmmyy8Rearrange (s : String) : String :=
  jsSubstrFrom s 6 ++ "-" ++ jsSubstr s 3 2 ++ "-" ++ jsSubstr s 0 2

/-- The `DATE9` branch of `convertDateColumns`:
`dateStr.substr(0, 2) ++ " " ++ dateStr.substr(2, 3) ++ " " ++ dateStr.substr(5)`. -/
def date9Rearrange (s : String) : String :=
  jsSubstr s 0 2 ++ " " ++ jsSubstr s 2 3 ++ " " ++ jsSubstrFrom s 5

/-- The format dispatch chain of `convertDateColumns`: each branch guards
on `colInfo.format && colInfo.format.formatString == ...`; the `JULIAN7`
branch is an empty placeholder and every unknown or absent format leaves
the string unchanged. -/
def applyFormat : Option VAFormat → String → String
  | some f, s =>
    if f.formatString == "DDMMYY8" then ddmmyy8Rearrange s
    else if f.formatString == "JULIAN7" then s
    else if f.formatString == "DATE9" then date9Rearrange s
    else s
  | none, s => s

/-- One cell of a date column: trim (throws a TypeError unless the cell is
a string, mirroring `(arrayData[r][c] as string).trim()`), apply the format
rearrangement, parse, and store the resulting date value. -/
def convertCell (fmt : Option VAFormat) : Cell → Except JSError Cell
  | .str s => .ok (.date (parseJSDate (applyFormat fmt (jsTrim s))))
  | _ => .error .typeError

/-- The inner row loop of `convertDateColumns` for a date column at
absolute index `c`: rewrite the cell of each row in place (an out-of-range
access reads `undefined`, whose `.trim()` also throws). -/
def convertColumnRows (fmt : Option VAFormat) (c : Nat) :
    List (List Cell) → Except JSError (List (List Cell))
  | [] => .ok []
  | row :: rest =>
    match row[c]? with
    | some cell =>
      match convertCell fmt cell with
      | .ok cell' =>
        match convertColumnRows fmt c rest with
        | .ok rest' => .ok (row.set c cell' :: rest')
        | .error e => .error e
      | .error e => .error e
    | none => .error .typeError

/-- The outer column loop of `convertDateColumns`, carrying the absolute
index of the column at the head of the remaining column list; non-date
columns are skipped. -/
def convertGo (c : Nat) (cols : List VAColumn) (rows : List (List Cell)) :
    Except JSError (List (List Cell)) :=
  match cols with
  | [] => .ok rows
  | col :: rest =>
    if col.type == "date" then
      match convertColumnRows col.format c rows with
      | .ok rows' => convertGo (c + 1) rest rows'
      | .error e => .error e
    else
      convertGo (c + 1) rest rows

/-- `convertDateColumns` from `content.ts`: rewrite every cell of every
date-typed column in place.  The result is the mutated message, or the
thrown error. -/
def convertDateColumns (resultData : VAMessage) : Except JSError VAMessage :=
  match convertGo 0 resultData.columns resultData.data with
  | .ok data' => .ok { resultData with data := data' }
  | .error e => .error e

/-- A date column with the given format, for concrete test messages. -/
def mkDateCol (fmt : Option VAFormat) : VAColumn :=
  ⟨"datecol", "datecol", "date", none, none, fmt⟩

/-- The format descriptor of a `DDMMYY8`-formatted column. -/
def fmtDDMMYY8 : VAFormat := ⟨"DDMMYY8", none, none, "DDMMYY8"⟩

example : ddmmyy8Rearrange "15022023" = "23-22-15" := by decide
example : ddmmyy8Rearrange "15/02/2023" = "2023-02-15" := by decide
example : parseJSDate "2023-02-15" = some ⟨2023, 2, 15⟩ := by decide
example : parseJSDate "23-22-15" = none := by decide
example :
    convertDateColumns
        (mkMsg [mkDateCol (some fmtDDMMYY8)] [[Cell.str "15022023"]] none)
      = .ok (mkMsg [mkDateCol (some fmtDDMMYY8)] [[Cell.date none]] none) := rfl

/-! ### initializeSelections -/

/-- The brush test of `initializeSelections`:
`columnsInfo[c].usage && columnsInfo[c].usage === 'brush'`. -/
def isBrushCol (col : VAColumn) : Bool :=
  col.usage == some "brush"

/-- The row loop run when a brush column has been found at absolute index
`c` (`r` is the index of the first row of the remaining list): a row is
recorded as selected when `arrayData[r][c] !== 0` (an out-of-range read
gives `undefined`, which also differs from `0`), and the brush cell is
spliced out of the row. -/
def processRows (c r : Nat) : List (List Cell) → List (List Cell) × List Nat
  | [] => ([], [])
  | row :: rest =>
    let pr := processRows c (r + 1) rest
    (row.eraseIdx c :: pr.1,
     if row[c]? != some (Cell.num 0) then r :: pr.2 else pr.2)

/-- The column scan of `initializeSelections`.  The loop index `c` is
incremented after every iteration, including iterations that splice the
current column out of the list, so the element shifted into position `c`
is not re-examined. -/
def initSelGo (c : Nat) (cols : List VAColumn) (rows : List (List Cell))
    (sels : List Nat) : List VAColumn × List (List Cell) × List Nat :=
  if h : c < cols.length then
    if isBrushCol cols[c] then
      let pr := processRows c 0 rows
      initSelGo (c + 1) (cols.eraseIdx c) pr.1 (sels ++ pr.2)
    else
      initSelGo (c + 1) cols rows sels
  else
    (cols, rows, sels)
termination_by cols.length - c
decreasing_by
· have hlt : (cols.eraseIdx c).length + 1 = cols.length :=
    List.length_eraseIdx_add_one h
  omega
· omega

/-- `initializeSelections` from `content.ts` on a present message: the
derived selection list together with the mutated message. -/
def initializeSelections (resultData : VAMessage) : List Nat × VAMessage :=
  let r := initSelGo 0 resultData.columns resultData.data []
  (r.2.2, { resultData with columns := r.1, data := r.2.1 })

example :
    initializeSelections
        (mkMsg [mkCol "number", mkBrushCol]
          [[Cell.num 1, Cell.num 0], [Cell.num 2, Cell.num 5]] none)
      = ([1], mkMsg [mkCol "number"] [[Cell.num 1], [Cell.num 2]] none) := by
  simp [initializeSelections, initSelGo, processRows, mkMsg, mkCol, mkBrushCol, isBrushCol]

/-! ### getVAParameters -/

/-- Assignment `parameters[label] = value` on a JavaScript object modelled
as an insertion-ordered association list: an existing key keeps its
position and gets the new value, a new key is appended. -/
def jsRecordSet (rec : List (String × VAValue)) (k : String) (v : VAValue) :
    List (String × VAValue) :=
  match rec with
  | [] => [(k, v)]
  | (k', v') :: rest =>
    if k' = k then (k, v) :: rest else (k', v') :: jsRecordSet rest k v

/-- Property read `rec[k]` on the modelled JavaScript object. -/
def jsGet : List (String × VAValue) → String → Option VAValue
  | [], _ => none
  | (k', v') :: rest, k => if k' = k then some v' else jsGet rest k

/-- `getVAParameters` from `content.ts` on a present message: fold the
parameter list (if any) into an object, later labels overwriting earlier
ones. -/
def getVAParameters (resultData : VAMessage) : List (String × VAValue) :=
  match resultData.parameters with
  | some ps => ps.foldl (fun rec p => jsRecordSet rec p.label p.value) []
  | none => []

/-- The value the spec assigns to a label: the value of the last parameter
carrying that label, if any (later duplicates overwrite earlier ones). -/
def lastMatch : List VAParameter → String → Option VAValue
  | [], _ => none
  | p :: ps, l =>
    match lastMatch ps l with
    | some v => some v
    | none => if p.label = l then some p.value else none

example :
    getVAParameters
        (mkMsg [] []
          (some [⟨"a", .str "1"⟩, ⟨"b", .arr ["x", "y"]⟩, ⟨"a", .str "2"⟩]))
      = [("a", .str "2"), ("b", .arr ["x", "y"])] := by decide

/-! ### Calls on a possibly-null message

`initializeSelections` and `convertDateColumns` begin with
`if (!resultData) return ...`; `getVAParameters` has no such guard and its
first action reads `resultData.parameters`.  Reading a property of `null`
throws a TypeError in JavaScript; `jsField` models that member access. -/

/-- Member access `m.f` on a possibly-null object: throws a TypeError on
`null`. -/
def jsField {α β : Type} (m : Option α) (f : α → β) : Except JSError β :=
  match m with
  | none => .error .typeError
  | some v => .ok (f v)

/-- Calling `getVAParameters` with a possibly-null argument: the body
immediately reads `resultData.parameters`, so a null argument throws. -/
def getVAParametersNullable (m : Option VAMessage) :
    Except JSError (List (String × VAValue)) :=
  jsField m getVAParameters

/-- Calling `initializeSelections` with a possibly-null argument: the
`if (!resultData) return null` guard returns `none` without touching the
message. -/
def initializeSelectionsNullable (m : Option VAMessage) :
    Except JSError (Option (List Nat × VAMessage)) :=
  match m with
  | none => .ok none
  | some msg => .ok (some (initializeSelections msg))

/-- Calling `convertDateColumns` with a possibly-null argument: the
`if (!resultData) return` guard makes the call a no-op. -/
def convertDateColumnsNullable (m : Option VAMessage) :
    Except JSError (Option VAMessage) :=
  match m with
  | none => .ok none
  | some msg =>
    match convertDateColumns msg with
    | .ok msg' => .ok (some msg')
    | .error e => .error e

/-! ### setupResizeListener

The debouncer touches three host facilities: `setTimeout`/`clearTimeout`,
the window's `resize` event, and a synthetic `resizeEndEvent`.  They are
modelled by an explicit world state on a discrete clock:

* `pending` is the host timer queue (`Timer.owner` is ghost data recording
  the index of the setup call whose resize handler created the timer);
* `timeoutID` is the module-level variable `_timeoutID`, shared by every
  `setupResizeListener` call;
* `numSetups` counts the `setupResizeListener` calls: the `k`-th call adds
  one `resize` handler (they all run, in registration order, on every raw
  resize notification) and one `resizeEndEvent` listener (dispatching the
  synthetic event runs all of them, since every setup call's event carries
  the same event type);
* `deliveries` records each settled-event callback invocation as
  (setup-call index, fire time), and `cancels` is a ghost log recording
  each successful `clearTimeout` as (index of the handling listener, owner
  of the cancelled timer). -/
structure Timer where
  tid : Nat
  fireAt : Nat
  owner : Nat
deriving DecidableEq, Repr

/-- The world state of the debouncer model. -/
structure World where
  timeoutID : Option Nat
  nextTid : Nat
  pending : List Timer
  numSetups : Nat
  deliveries : List (Nat × Nat)
  cancels : List (Nat × Nat)
deriving DecidableEq, Repr

/-- The world before any `setupResizeListener` call. -/
def initWorld : World := ⟨none, 0, [], 0, [], []⟩

/-- One `setupResizeListener` call: registers one more resize handler and
one more settled-event listener.  No timer state is created. -/
def setupResizeListener (w : World) : World :=
  { w with numSetups := w.numSetups + 1 }

/-- `n` successive `setupResizeListener` calls. -/
def setupN : Nat → World → World
  | 0, w => w
  | n + 1, w => setupResizeListener (setupN n w)

/-- `clearTimeout(_timeoutID)` issued by the resize handler of setup call
`i`: remove the timer with that id from the host queue if it is still
pending (clearing an already-fired timer is a no-op), logging the
cancellation. -/
def clearTimeoutW (w : World) (i tid : Nat) : World :=
  match w.pending.find? (fun tm => tm.tid == tid) with
  | some tm =>
    { w with
      pending := w.pending.filter (fun tm' => tm'.tid != tid)
      cancels := w.cancels ++ [(i, tm.owner)] }
  | none => w

/-- The `resize` handler registered by setup call `i`, run at time `t`:
`if (_timeoutID) clearTimeout(_timeoutID); _timeoutID = setTimeout(..., 25)`. -/
def handleResize (t i : Nat) (w : World) : World :=
  let w1 :=
    match w.timeoutID with
    | some tid => clearTimeoutW w i tid
    | none => w
  { w1 with
    timeoutID := some w1.nextTid
    nextTid := w1.nextTid + 1
    pending := w1.pending ++ [⟨w1.nextTid, t + 25, i⟩] }

/-- Run the resize handlers with the given setup-call indices in order. -/
def runHandlers (t : Nat) : List Nat → World → World
  | [], w => w
  | i :: is, w => runHandlers t is (handleResize t i w)

/-- A raw resize notification at time `t`: every registered resize handler
runs, in registration order. -/
def notifyResize (t : Nat) (w : World) : World :=
  runHandlers t (List.range w.numSetups) w

/-- The settled-event deliveries produced by one dispatch at time `t`: the
synthetic event reaches all `k` registered settled-event listeners. -/
def settleDeliveries (k t : Nat) : List (Nat × Nat) :=
  (List.range k).map (fun i => (i, t))

/-- Fire every pending timer due strictly before time `tcut`, in queue
order; a firing timer dispatches the settled event to all listeners. -/
def fireDueList (tcut k : Nat) : List Timer → List Timer × List (Nat × Nat)
  | [] => ([], [])
  | tm :: rest =>
    if tm.fireAt < tcut then
      let pr := fireDueList tcut k rest
      (pr.1, settleDeliveries k tm.fireAt ++ pr.2)
    else
      (tm :: rest, [])

/-- Advance the clock to time `tcut`: all strictly earlier timers fire. -/
def fireDue (tcut : Nat) (w : World) : World :=
  let pr := fireDueList tcut w.numSetups w.pending
  { w with pending := pr.1, deliveries := w.deliveries ++ pr.2 }

/-- Deliveries produced by letting every remaining timer fire. -/
def flushList (k : Nat) : List Timer → List (Nat × Nat)
  | [] => []
  | tm :: rest => settleDeliveries k tm.fireAt ++ flushList k rest

/-- Let the clock run out: every remaining pending timer fires. -/
def flushAll (w : World) : World :=
  { w with pending := [], deliveries := w.deliveries ++ flushList w.numSetups w.pending }

/-- Run a list of raw resize notifications at the given (nondecreasing)
times, then let the remaining timers fire. -/
def runBurst (w : World) : List Nat → World
  | [] => flushAll w
  | t :: ts => runBurst (notifyResize t (fireDue t w)) ts

example :
    (runBurst (setupN 1 initWorld) [0, 10, 20]).deliveries = [(0, 45)] := by decide
example :
    (runBurst (setupN 2 initWorld) [0, 10, 20]).deliveries
      = [(0, 45), (1, 45)] := by decide
example : (notifyResize 0 (setupN 2 initWorld)).cancels = [(1, 0)] := by decide

/-! ### Spec-side descriptions of the selection extraction

These definitions follow the specification's wording (schema and rows
shrink by one element per brush column, one selection entry per selected
row per brush column); the theorems below compare `initializeSelections`
against them. -/

/-- Spec-side: a row with its brush cells removed, walking the column list
and the row in lockstep. -/
def stripRow : List VAColumn → List Cell → List Cell
  | [], cells => cells
  | _, [] => []
  | col :: cols, cell :: cells =>
    if isBrushCol col then stripRow cols cells
    else cell :: stripRow cols cells

/-- Spec-side: the indices (starting at `r`) of the rows whose leading cell
marks a selection (any value other than the number `0`, a missing cell
included). -/
def selHeads (r : Nat) : List (List Cell) → List Nat
  | [] => []
  | row :: rest =>
    if row.head? != some (Cell.num 0) then r :: selHeads (r + 1) rest
    else selHeads (r + 1) rest

/-- Spec-side: the selection entries accumulated column by column — for
each brush column, one entry per selected row, rows advancing one cell per
column. -/
def suffixSels : List VAColumn → List (List Cell) → List Nat
  | [], _ => []
  | col :: rest, rowSufs =>
    (if isBrushCol col then selHeads 0 rowSufs else [])
      ++ suffixSels rest (rowSufs.map (fun row => row.drop 1))

/-- Spec-side: the total number of selection entries — one per selected
row per brush column. -/
def brushSelTotal : List VAColumn → List (List Cell) → Nat
  | [], _ => 0
  | col :: rest, rowSufs =>
    (if isBrushCol col then
       rowSufs.countP (fun row => row.head? != some (Cell.num 0))
     else 0)
      + brushSelTotal rest (rowSufs.map (fun row => row.drop 1))

/-! ### Message state after the two read-only operations

`validateRoles` and `getVAParameters` never write to the message object;
these wrappers pair each call's result with the message as it stands when
the call returns, so that preservation claims can be stated uniformly. -/

/-- A `validateRoles` call together with the message after the call. -/
def validateRolesCall (msg : VAMessage) (expectedTypes : List String)
    (optionalTypes : OptionalTypes) : Bool × VAMessage :=
  (validateRoles msg expectedTypes optionalTypes, msg)

/-- A `getVAParameters` call together with the message after the call. -/
def getVAParametersCall (msg : VAMessage) :
    List (String × VAValue) × VAMessage :=
  (getVAParameters msg, msg)

/-- The one-cell `DDMMYY8` date message of the C1 scenario. -/
def msgC1 : VAMessage :=
  mkMsg [mkDateCol (some fmtDDMMYY8)] [[Cell.str "15022023"]] none

/-- C1, counterexample: on the raw cell string of the claim, the fixed
substring offsets of the `DDMMYY8` branch produce the string
23-22-15 — not 2023-02-15 — and the stored cell is the invalid-date
sentinel, not February 15, 2023 (the offsets reassemble a
year-month-day string only from separated input such as 15/02/2023,
where offset 6 really starts the year). -/
theorem c1_counterexample :
    applyFormat (some fmtDDMMYY8) (jsTrim "15022023") = "23-22-15"
    ∧ (decide (("23-22-15" : String) = "2023-02-15") = false)
    ∧ convertDateColumns msgC1
        = .ok (mkMsg [mkDateCol (some fmtDDMMYY8)]
            [[Cell.date (parseJSDate "23-22-15")]] none)
    ∧ parseJSDate "23-22-15" = none
    ∧ (decide (Cell.date none = Cell.date (some ⟨2023, 2, 15⟩)) = false) :=
  ⟨by decide, by decide, rfl, by decide, by decide⟩

/-- C1, amended: for a date-typed column whose format is DDMMYY8,
`convertDateColumns` rearranges the trimmed raw cell string 15022023 into
23-22-15 (substring offset 6 onward, then the two characters from offset
3, then the two characters from offset 0, joined by dashes) before
parsing; that string does not parse as a date, so the stored cell is the
invalid-date sentinel, not February 15, 2023. -/
theorem c1_theorem :
    applyFormat (some fmtDDMMYY8) (jsTrim "15022023")
        = jsSubstrFrom "15022023" 6 ++ "-" ++ jsSubstr "15022023" 3 2
            ++ "-" ++ jsSubstr "15022023" 0 2
    ∧ applyFormat (some fmtDDMMYY8) (jsTrim "15022023") = "23-22-15"
    ∧ convertDateColumns msgC1
        = .ok (mkMsg [mkDateCol (some fmtDDMMYY8)] [[Cell.date none]] none) :=
  ⟨by decide, by decide, rfl⟩

/-- C9: `getVAParameters` has no absent-message guard — called on a null
message its first property read throws, so it does not return the empty
mapping — while `initializeSelections` returns null and
`convertDateColumns` returns without touching anything. -/
theorem c9_theorem :
    getVAParametersNullable none = .error .typeError
    ∧ exceptIsOk (getVAParametersNullable none) = false
    ∧ initializeSelectionsNullable none = .ok none
    ∧ convertDateColumnsNullable none = .ok none :=
  ⟨rfl, rfl, rfl, rfl⟩

/-- Reading a key after a JavaScript-object assignment: the assigned key
now maps to the new value and every other key is unaffected. -/
theorem jsGet_jsRecordSet (rec : List (String × VAValue)) (k : String)
    (v : VAValue) (l : String) :
    jsGet (jsRecordSet rec k v) l = if k = l then some v else jsGet rec l := by
  induction rec with
  | nil => simp [jsRecordSet, jsGet]
  | cons hd tl ih =>
    obtain ⟨k', v'⟩ := hd
    by_cases hk : k' = k
    · subst hk
      by_cases hl : k' = l <;> simp [jsRecordSet, jsGet, hl]
    · by_cases hl : k' = l
      · subst hl
        have : ¬k = k' := fun h => hk h.symm
        simp [jsRecordSet, jsGet, hk, this]
      · simp [jsRecordSet, jsGet, hk, hl, ih]

/-- Folding a parameter list into the object gives last-write-wins reads. -/
theorem jsGet_foldParams (ps : List VAParameter)
    (rec : List (String × VAValue)) (l : String) :
    jsGet (ps.foldl (fun rec p => jsRecordSet rec p.label p.value) rec) l
      = match lastMatch ps l with
        | some v => some v
        | none => jsGet rec l := by
  induction ps generalizing rec with
  | nil => simp [lastMatch]
  | cons p ps ih =>
    rw [List.foldl_cons, ih, lastMatch]
    cases hm : lastMatch ps l with
    | some v => simp
    | none =>
      rw [jsGet_jsRecordSet]
      by_cases hl : p.label = l <;> simp [hl]

/-- The parameter list of the C8 scenario. -/
def paramsC8 : List VAParameter :=
  [⟨"a", .str "1"⟩, ⟨"b", .arr ["x", "y"]⟩, ⟨"a", .str "2"⟩]

/-- The message of the C8 scenario. -/
def msgC8 : VAMessage := mkMsg [] [] (some paramsC8)

/-- C8: `getVAParameters` returns the empty mapping when the message has
no parameters; otherwise it folds the parameters in order with later
duplicate labels overwriting earlier ones (every read yields the last
value written for that label), and on the concrete parameter list
a:1, b:[x,y], a:2 it yields the mapping a:2, b:[x,y]. -/
theorem c8_theorem :
    (∀ msg : VAMessage, msg.parameters = none → getVAParameters msg = [])
    ∧ (∀ (msg : VAMessage) (ps : List VAParameter) (l : String),
        msg.parameters = some ps →
          jsGet (getVAParameters msg) l = lastMatch ps l)
    ∧ getVAParameters msgC8 = [("a", .str "2"), ("b", .arr ["x", "y"])] := by
  refine ⟨?_, ?_, by decide⟩
  · intro msg h
    simp [getVAParameters, h]
  · intro msg ps l h
    rw [getVAParameters, h, jsGet_foldParams]
    cases hm : lastMatch ps l <;> simp [jsGet]

/-- C8 witness: the last-write-wins read, instantiated on the concrete C8
message at label a. -/
theorem c8_witness :
    jsGet (getVAParameters msgC8) "a" = lastMatch paramsC8 "a" :=
  c8_theorem.2.1 msgC8 paramsC8 "a" rfl

/-- C4, counterexample: with two `setupResizeListener` calls registered, a
single raw resize notification at time 0 makes the second call's listener
cancel the pending timer that the first call's listener had just created —
the cancellation log records canceller index 1 against timer owner 0, two
distinct setup calls. -/
theorem c4_counterexample :
    (notifyResize 0 (setupN 2 initWorld)).cancels = [(1, 0)]
    ∧ (decide ((1 : Nat) = 0) = false) :=
  ⟨by decide, by decide⟩

/-- C4, amended: the timer handle `_timeoutID` is module-global and shared
by every `setupResizeListener` call, so whichever call's listener handles
a raw resize notification cancels the currently pending timer regardless
of which call's listener created it — cross-call cancellation, not
per-call independent timer state. -/
theorem c4_theorem (w : World) (t i : Nat) (tm : Timer)
    (hp : w.pending = [tm]) (ht : w.timeoutID = some tm.tid) :
    (handleResize t i w).cancels = w.cancels ++ [(i, tm.owner)] := by
  simp [handleResize, clearTimeoutW, hp, ht]

/-- A world in which the first setup call's listener owns the pending
timer. -/
def wC4 : World := ⟨some 0, 1, [⟨0, 25, 0⟩], 2, [], []⟩

/-- C4 witness: in `wC4` the second call's listener (index 1) handles a
notification and cancels the timer owned by the first call's listener
(owner 0). -/
theorem c4_witness :
    (handleResize 30 1 wC4).cancels = wC4.cancels ++ [(1, 0)] :=
  c4_theorem wC4 30 1 ⟨0, 25, 0⟩ rfl rfl

/-- The two-column message of the C3 scenario. -/
def msgC3 : VAMessage := mkMsg [mkCol "number", mkCol "string"] [] none

/-- The C3 message extended by one date column. -/
def msgC3ext : VAMessage :=
  mkMsg [mkCol "number", mkCol "string", mkCol "date"] [] none

/-- C3, counterexample: with required types [number] and optional types
[string], the two-column message validates to true; appending one extra
column of type date — a type not in the optional list — still validates to
true, because the lockstep comparison stops once the optional list is
exhausted.  The previously-true result does not flip to false. -/
theorem c3_counterexample :
    validateRoles msgC3 ["number"] (.list ["string"]) = true
    ∧ msgC3ext.columns = msgC3.columns ++ [mkCol "date"]
    ∧ (mkCol "date").type = "date"
    ∧ (["string"].contains "date") = false
    ∧ validateRoles msgC3ext ["number"] (.list ["string"]) = true :=
  ⟨by decide, by decide, by decide, by decide, by decide⟩

/-- Appending a column does not change the required-columns check as long
as the columns already cover the expected types. -/
theorem typesMatchReq_append (expected : List String) (cols : List VAColumn)
    (x : VAColumn) (h : expected.length ≤ cols.length) :
    typesMatchReq (cols ++ [x]) expected = typesMatchReq cols expected := by
  induction expected generalizing cols with
  | nil => simp [typesMatchReq]
  | cons t ts ih =>
    cases cols with
    | nil => simp at h
    | cons col cols =>
      show (col.type == t && typesMatchReq (cols ++ [x]) ts)
          = (col.type == t && typesMatchReq cols ts)
      rw [ih cols (by simpa using h)]

/-- The empty suffix passes the lockstep optional check. -/
theorem typesMatchOpt_nil (ts : List String) : typesMatchOpt [] ts = true := by
  cases ts <;> rfl

/-- Appending one column whose type occurs nowhere in the optional list
breaks a passing lockstep check, provided the suffix is still shorter than
the optional list (so the comparison reaches the new column). -/
theorem typesMatchOpt_append_false (d : List VAColumn) (ts : List String)
    (x : VAColumn) (h1 : typesMatchOpt d ts = true) (h2 : d.length < ts.length)
    (h3 : x.type ∉ ts) :
    typesMatchOpt (d ++ [x]) ts = false := by
  induction d generalizing ts with
  | nil =>
    cases ts with
    | nil => simp at h2
    | cons t ts' =>
      have hxt : x.type ≠ t := fun h => h3 (h ▸ List.mem_cons_self t ts')
      simp [typesMatchOpt, hxt]
  | cons c cs ih =>
    cases ts with
    | nil => simp at h2
    | cons t ts' =>
      simp only [typesMatchOpt, Bool.and_eq_true] at h1
      have h3' : x.type ∉ ts' := fun h => h3 (List.mem_cons_of_mem t h)
      simp only [List.cons_append, typesMatchOpt, h1.1, Bool.true_and]
      exact ih ts' h1.2 (by simpa using h2) h3'

/-- C3, amended: appending one extra column whose type does not occur in
the optional-type list flips a previously-true `validateRoles` result to
false, provided the message's extra columns did not already exhaust the
optional list (when they had, the lockstep comparison stops before the new
column and the result stays true, as the counterexample shows). -/
theorem c3_theorem (msg : VAMessage) (expected ts : List String)
    (newCol : VAColumn)
    (h1 : validateRoles msg expected (.list ts) = true)
    (h2 : msg.columns.length - expected.length < ts.length)
    (h3 : newCol.type ∉ ts) :
    validateRoles { msg with columns := msg.columns ++ [newCol] } expected
      (.list ts) = false := by
  unfold validateRoles at h1 ⊢
  simp only at h1 ⊢
  by_cases hlen : msg.columns.length < expected.length
  · rw [if_pos hlen] at h1
    exact absurd h1 (by simp)
  · have hle : expected.length ≤ msg.columns.length := Nat.le_of_not_lt hlen
    rw [if_neg hlen] at h1
    by_cases hreq : typesMatchReq msg.columns expected = true
    · have hreq' : typesMatchReq (msg.columns ++ [newCol]) expected = true := by
        rw [typesMatchReq_append expected msg.columns newCol hle]; exact hreq
      have hlen' : ¬(msg.columns ++ [newCol]).length < expected.length := by
        simp only [List.length_append, List.length_cons, List.length_nil]
        omega
      have hgt' : (msg.columns ++ [newCol]).length > expected.length := by
        simp only [List.length_append, List.length_cons, List.length_nil]
        omega
      have hopt : typesMatchOpt (msg.columns.drop expected.length) ts = true := by
        by_cases hgt : msg.columns.length > expected.length
        · rw [hreq] at h1
          simp only [Bool.not_true] at h1
          rw [if_neg Bool.false_ne_true, if_pos hgt] at h1
          exact h1
        · rw [List.drop_eq_nil_of_le (Nat.le_of_not_lt hgt)]
          exact typesMatchOpt_nil ts
      have hdrop : (msg.columns ++ [newCol]).drop expected.length
          = msg.columns.drop expected.length ++ [newCol] :=
        List.drop_append_of_le_length hle
      have hdl : (msg.columns.drop expected.length).length < ts.length := by
        rw [List.length_drop]; exact h2
      rw [if_neg hlen', hreq']
      simp only [Bool.not_true]
      rw [if_neg Bool.false_ne_true, if_pos hgt', hdrop]
      exact typesMatchOpt_append_false _ ts newCol hopt hdl h3
    · have hf : typesMatchReq msg.columns expected = false :=
        Bool.eq_false_iff.mpr hreq
      rw [hf] at h1
      simp at h1

/-- C3 witness: a one-column message validating against required [number]
with optional [string]; appending a date column flips the result to
false. -/
theorem c3_witness :
    validateRoles { mkMsg [mkCol "number"] [] none with
        columns := (mkMsg [mkCol "number"] [] none).columns ++ [mkCol "date"] }
      ["number"] (.list ["string"]) = false :=
  c3_theorem (mkMsg [mkCol "number"] [] none) ["number"] ["string"]
    (mkCol "date") (by decide) (by decide) (by decide)

/-! ### Structure of the date-conversion loops -/

/-- A successful pass over one date column rewrites exactly the cell at
index `c` of every row: each processed row was a string there and now
holds the parsed date. -/
theorem convertColumnRows_ok (fmt : Option VAFormat) (c : Nat)
    (rows rows' : List (List Cell))
    (h : convertColumnRows fmt c rows = .ok rows') :
    rows'.length = rows.length ∧
      ∀ (r : Nat) (row : List Cell), rows[r]? = some row →
        ∃ s, row[c]? = some (Cell.str s) ∧
          rows'[r]? = some (row.set c
            (Cell.date (parseJSDate (applyFormat fmt (jsTrim s))))) := by
  induction rows generalizing rows' with
  | nil =>
    simp only [convertColumnRows] at h
    cases h
    exact ⟨rfl, fun r row hr => by simp at hr⟩
  | cons row0 rest ih =>
    cases hc : row0[c]? with
    | none => simp [convertColumnRows, hc] at h
    | some cell =>
      cases cell with
      | num n => simp [convertColumnRows, hc, convertCell] at h
      | date d => simp [convertColumnRows, hc, convertCell] at h
      | str s =>
        cases hrec : convertColumnRows fmt c rest with
        | error e => simp [convertColumnRows, hc, convertCell, hrec] at h
        | ok rest' =>
          simp only [convertColumnRows, hc, convertCell, hrec] at h
          cases h
          obtain ⟨ihlen, ihcell⟩ := ih rest' hrec
          refine ⟨by simp [ihlen], ?_⟩
          intro r row hr
          match r with
          | 0 =>
            simp only [List.getElem?_cons_zero, Option.some.injEq] at hr
            subst hr
            exact ⟨s, hc, by simp⟩
          | r + 1 =>
            simp only [List.getElem?_cons_succ] at hr ⊢
            exact ihcell r row hr

/-- A date column containing a non-string cell (or a missing cell) makes
the row pass throw. -/
theorem convertColumnRows_error (fmt : Option VAFormat) (c : Nat)
    (rows : List (List Cell)) (row : List Cell) (hmem : row ∈ rows)
    (hbad : ∀ s, row[c]? ≠ some (Cell.str s)) :
    convertColumnRows fmt c rows = .error .typeError := by
  induction rows with
  | nil => simp at hmem
  | cons row0 rest ih =>
    rcases List.mem_cons.mp hmem with hhead | htail
    · subst hhead
      cases hc : row[c]? with
      | none => simp [convertColumnRows, hc]
      | some cell =>
        cases cell with
        | str s => exact absurd hc (hbad s)
        | num n => simp [convertColumnRows, hc, convertCell]
        | date d => simp [convertColumnRows, hc, convertCell]
    · have herr := ih htail
      cases hc : row0[c]? with
      | none => simp [convertColumnRows, hc]
      | some cell =>
        cases cell with
        | str s => simp [convertColumnRows, hc, convertCell, herr]
        | num n => simp [convertColumnRows, hc, convertCell]
        | date d => simp [convertColumnRows, hc, convertCell]

/-- A successful column scan starting at index `c` keeps every row (same
count, same length) and never touches cell positions below `c`. -/
theorem convertGo_preserves (cols : List VAColumn) (c : Nat)
    (rows rows' : List (List Cell)) (h : convertGo c cols rows = .ok rows') :
    ∀ (r : Nat) (row : List Cell), rows[r]? = some row →
      ∃ row', rows'[r]? = some row' ∧ row'.length = row.length ∧
        ∀ q, q < c → row'[q]? = row[q]? := by
  induction cols generalizing c rows with
  | nil =>
    simp only [convertGo] at h
    cases h
    exact fun r row hr => ⟨row, hr, rfl, fun _ _ => rfl⟩
  | cons col0 rest ih =>
    by_cases hty : col0.type == "date"
    · cases hcr : convertColumnRows col0.format c rows with
      | error e => simp [convertGo, hty, hcr] at h
      | ok rows1 =>
        simp only [convertGo, hty, if_true, hcr] at h
        intro r row hr
        obtain ⟨-, hcell⟩ := convertColumnRows_ok col0.format c rows rows1 hcr
        obtain ⟨s, hs, hr1⟩ := hcell r row hr
        obtain ⟨row', hr', hlen', hq'⟩ := ih (c + 1) rows1 h r _ hr1
        refine ⟨row', hr', by simp [hlen'], ?_⟩
        intro q hq
        rw [hq' q (by omega), List.getElem?_set_ne (by omega)]
    · simp only [convertGo, hty, if_false] at h
      intro r row hr
      obtain ⟨row', hr', hlen', hq'⟩ := ih (c + 1) rows h r row hr
      exact ⟨row', hr', hlen', fun q hq => hq' q (by omega)⟩

/-- After a successful `convertGo` pass, the cell of any date column holds
the parsed date of its trimmed, format-rearranged original string. -/
theorem convertGo_ok_cell (cols : List VAColumn) (c k : Nat)
    (rows rows' : List (List Cell)) (col : VAColumn)
    (h : convertGo c cols rows = .ok rows')
    (hk : cols[k]? = some col) (ht : col.type = "date")
    (r : Nat) (row : List Cell) (hr : rows[r]? = some row)
    (s : String) (hcell : row[c + k]? = some (Cell.str s)) :
    ∃ row', rows'[r]? = some row' ∧
      row'[c + k]? = some (Cell.date (parseJSDate
        (applyFormat col.format (jsTrim s)))) := by
  induction cols generalizing c k rows row with
  | nil => simp at hk
  | cons col0 rest ih =>
    by_cases hty : col0.type == "date"
    · cases hcr : convertColumnRows col0.format c rows with
      | error e => simp [convertGo, hty, hcr] at h
      | ok rows1 =>
        simp only [convertGo, hty, if_true, hcr] at h
        obtain ⟨-, hcellok⟩ := convertColumnRows_ok col0.format c rows rows1 hcr
        obtain ⟨s0, hs0, hr1⟩ := hcellok r row hr
        match k with
        | 0 =>
          simp only [List.getElem?_cons_zero, Option.some.injEq] at hk
          subst hk
          have hs : s0 = s := by
            rw [Nat.add_zero] at hcell
            rw [hcell] at hs0
            cases hs0
            rfl
          subst hs
          have hclen : c < row.length := by
            have := List.getElem?_eq_some_iff.mp hs0
            exact this.1
          obtain ⟨row', hr', hlen', hq'⟩ :=
            convertGo_preserves rest (c + 1) rows1 rows' h r _ hr1
          refine ⟨row', hr', ?_⟩
          rw [Nat.add_zero, hq' c (by omega), List.getElem?_set_self (by simpa using hclen)]
        | k + 1 =>
          simp only [List.getElem?_cons_succ] at hk
          have hcell1 : (row.set c (Cell.date (parseJSDate
              (applyFormat col0.format (jsTrim s0)))))[(c + 1) + k]?
                = some (Cell.str s) := by
            have heq : (c + 1) + k = c + (k + 1) := by omega
            rw [heq, List.getElem?_set_ne (by omega)]
            exact hcell
          obtain ⟨row', hr', hcv⟩ := ih (c + 1) k rows1 h hk _ hr1 hcell1
          refine ⟨row', hr', ?_⟩
          have heq : (c + 1) + k = c + (k + 1) := by omega
          rw [← heq]
          exact hcv
    · simp only [convertGo, hty, if_false] at h
      match k with
      | 0 =>
        simp only [List.getElem?_cons_zero, Option.some.injEq] at hk
        rw [hk] at hty
        exact absurd (by simp [ht]) hty
      | k + 1 =>
        simp only [List.getElem?_cons_succ] at hk
        have heq : (c + 1) + k = c + (k + 1) := by omega
        have hcell' : row[(c + 1) + k]? = some (Cell.str s) := by
          rw [heq]; exact hcell
        obtain ⟨row', hr', hcv⟩ := ih (c + 1) k rows h hk row hr hcell'
        exact ⟨row', hr', by rw [← heq]; exact hcv⟩

/-- A format descriptor whose name field says DDMMYY8 but whose
formatString field says something else. -/
def fmtNameOnly : VAFormat := ⟨"DDMMYY8", none, none, "OTHER"⟩

/-- C5, counterexample: the rearrangement is not selected by the format's
`name` field — a column whose format name is DDMMYY8 but whose
formatString is OTHER receives no transformation at all, its cell string
passing through unchanged instead of being reordered. -/
theorem c5_counterexample :
    fmtNameOnly.name = "DDMMYY8"
    ∧ applyFormat (some fmtNameOnly) "15/02/2023" = "15/02/2023"
    ∧ ddmmyy8Rearrange "15/02/2023" = "2023-02-15"
    ∧ (decide (applyFormat (some fmtNameOnly) "15/02/2023"
        = ddmmyy8Rearrange "15/02/2023") = false) :=
  ⟨rfl, by decide, by decide, by decide⟩

/-- A non-string cell anywhere in a date column aborts the whole scan with
a TypeError. -/
theorem convertGo_error (cols : List VAColumn) (c k : Nat)
    (rows : List (List Cell)) (col : VAColumn)
    (hk : cols[k]? = some col) (ht : col.type = "date")
    (r : Nat) (row : List Cell) (hr : rows[r]? = some row)
    (hbad : ∀ s, row[c + k]? ≠ some (Cell.str s)) :
    convertGo c cols rows = .error .typeError := by
  induction cols generalizing c k rows row with
  | nil => simp at hk
  | cons col0 rest ih =>
    by_cases hty : col0.type == "date"
    · cases hcr : convertColumnRows col0.format c rows with
      | error e =>
        cases e
        simp [convertGo, hty, hcr]
      | ok rows1 =>
        match k with
        | 0 =>
          have hbad0 : ∀ s, row[c]? ≠ some (Cell.str s) := by
            intro s
            have := hbad s
            rw [Nat.add_zero] at this
            exact this
          have herr := convertColumnRows_error col0.format c rows row
            (List.getElem?_mem hr) hbad0
          rw [herr] at hcr
          cases hcr
        | k + 1 =>
          simp only [List.getElem?_cons_succ] at hk
          simp only [convertGo, hty, if_true, hcr]
          obtain ⟨-, hcellok⟩ := convertColumnRows_ok col0.format c rows rows1 hcr
          obtain ⟨s0, hs0, hr1⟩ := hcellok r row hr
          refine ih (c + 1) k rows1 hk _ hr1 ?_
          intro s hs
          have heq : (c + 1) + k = c + (k + 1) := by omega
          rw [heq, List.getElem?_set_ne (by omega)] at hs
          exact hbad s hs
    · match k with
      | 0 =>
        simp only [List.getElem?_cons_zero, Option.some.injEq] at hk
        rw [hk] at hty
        exact absurd (by simp [ht]) hty
      | k + 1 =>
        simp only [List.getElem?_cons_succ] at hk
        simp only [convertGo, hty, if_false]
        refine ih (c + 1) k rows hk row hr ?_
        intro s hs
        have heq : (c + 1) + k = c + (k + 1) := by omega
        rw [heq] at hs
        exact hbad s hs

/-- The DATE9 format descriptor used by the C5 witness scenario. -/
def fmtDATE9 : VAFormat := ⟨"DATE9", none, none, "DATE9"⟩

/-- The one-cell DATE9 message of the C5 witness scenario. -/
def msgC5 : VAMessage :=
  mkMsg [mkDateCol (some fmtDATE9)] [[Cell.str "15FEB23"]] none

/-- C5, amended: which rearrangement `convertDateColumns` applies to a
date-typed column's cells is selected by the column's format descriptor's
`formatString` field: after a successful run the stored cell is the parse
of the trimmed string rearranged according to that field — the DDMMYY8
reorder when formatString is DDMMYY8, the placeholder passthrough when it
is JULIAN7, the DATE9 reorder when it is DATE9, and no rearrangement
otherwise. -/
theorem c5_theorem (msg : VAMessage) (c r : Nat) (col : VAColumn)
    (row : List Cell) (s : String) (msg' : VAMessage)
    (hc : msg.columns[c]? = some col) (ht : col.type = "date")
    (hr : msg.data[r]? = some row) (hcell : row[c]? = some (Cell.str s))
    (hok : convertDateColumns msg = .ok msg') :
    ∃ row', msg'.data[r]? = some row'
      ∧ row'[c]? = some (Cell.date (parseJSDate
          (applyFormat col.format (jsTrim s))))
      ∧ (∀ f, col.format = some f →
          ((f.formatString = "DDMMYY8" →
              applyFormat col.format (jsTrim s) = ddmmyy8Rearrange (jsTrim s))
            ∧ (f.formatString = "JULIAN7" →
              applyFormat col.format (jsTrim s) = jsTrim s)
            ∧ (f.formatString = "DATE9" →
              applyFormat col.format (jsTrim s) = date9Rearrange (jsTrim s))))
      ∧ (col.format = none → applyFormat col.format (jsTrim s) = jsTrim s) := by
  cases hgo : convertGo 0 msg.columns msg.data with
  | error e => rw [convertDateColumns, hgo] at hok; cases hok
  | ok data' =>
    rw [convertDateColumns, hgo] at hok
    cases hok
    have hcell0 : row[0 + c]? = some (Cell.str s) := by
      rw [Nat.zero_add]; exact hcell
    obtain ⟨row', hr', hcv⟩ :=
      convertGo_ok_cell msg.columns 0 c msg.data data' col hgo hc ht r row hr s hcell0
    rw [Nat.zero_add] at hcv
    refine ⟨row', hr', hcv, ?_, ?_⟩
    · intro f hf
      refine ⟨?_, ?_, ?_⟩
      · intro hfs
        simp [applyFormat, hf, hfs]
      · intro hfs
        simp [applyFormat, hf, hfs]
      · intro hfs
        simp [applyFormat, hf, hfs]
    · intro hf
      simp [applyFormat, hf]

/-- C5 witness: on the concrete DATE9 message the stored cell is the parse
of the DATE9-rearranged trimmed string, and the dispatch facts hold for
its format descriptor. -/
theorem c5_witness :
    ∃ row',
      (mkMsg [mkDateCol (some fmtDATE9)] [[Cell.date none]] none).data[0]?
          = some row'
      ∧ row'[0]? = some (Cell.date (parseJSDate
          (applyFormat (mkDateCol (some fmtDATE9)).format (jsTrim "15FEB23"))))
      ∧ (∀ f, (mkDateCol (some fmtDATE9)).format = some f →
          ((f.formatString = "DDMMYY8" →
              applyFormat (mkDateCol (some fmtDATE9)).format (jsTrim "15FEB23")
                = ddmmyy8Rearrange (jsTrim "15FEB23"))
            ∧ (f.formatString = "JULIAN7" →
              applyFormat (mkDateCol (some fmtDATE9)).format (jsTrim "15FEB23")
                = jsTrim "15FEB23")
            ∧ (f.formatString = "DATE9" →
              applyFormat (mkDateCol (some fmtDATE9)).format (jsTrim "15FEB23")
                = date9Rearrange (jsTrim "15FEB23"))))
      ∧ ((mkDateCol (some fmtDATE9)).format = none →
          applyFormat (mkDateCol (some fmtDATE9)).format (jsTrim "15FEB23")
            = jsTrim "15FEB23") :=
  c5_theorem msgC5 0 0 (mkDateCol (some fmtDATE9)) [Cell.str "15FEB23"]
    "15FEB23" (mkMsg [mkDateCol (some fmtDATE9)] [[Cell.date none]] none)
    rfl rfl rfl rfl rfl

/-- The re-runnable-input message of the C10 scenario. -/
def msgC10 : VAMessage :=
  mkMsg [mkDateCol none] [[Cell.str "2023-02-15"]] none

/-- The C10 message after one `convertDateColumns` run: the cell now holds
a date value, not a string. -/
def msgC10res : VAMessage :=
  mkMsg [mkDateCol none] [[Cell.date (some ⟨2023, 2, 15⟩)]] none

/-- C10: `convertDateColumns` requires every cell of every date-typed
column to be a string — any non-string cell there makes the run throw a
TypeError — and in particular a second run on the output of a first run
(whose date cells now hold date values) throws: the operation is not
safely re-runnable on its own output. -/
theorem c10_theorem :
    (∀ (msg : VAMessage) (c : Nat) (col : VAColumn) (r : Nat)
        (row : List Cell),
        msg.columns[c]? = some col → col.type = "date" →
        msg.data[r]? = some row → (∀ s, row[c]? ≠ some (Cell.str s)) →
        convertDateColumns msg = .error .typeError)
    ∧ convertDateColumns msgC10 = .ok msgC10res
    ∧ convertDateColumns msgC10res = .error .typeError := by
  refine ⟨?_, rfl, rfl⟩
  intro msg c col r row hc ht hr hbad
  have hbad0 : ∀ s, row[0 + c]? ≠ some (Cell.str s) := by
    intro s
    rw [Nat.zero_add]
    exact hbad s
  rw [convertDateColumns,
    convertGo_error msg.columns 0 c msg.data col hc ht r row hr hbad0]

/-- A message whose date column holds a number cell. -/
def msgC10bad : VAMessage := mkMsg [mkDateCol none] [[Cell.num 3]] none

/-- C10 witness: a date column holding the number 3 makes
`convertDateColumns` throw. -/
theorem c10_witness :
    convertDateColumns msgC10bad = .error .typeError :=
  c10_theorem.1 msgC10bad 0 (mkDateCol none) 0 [Cell.num 3] rfl rfl rfl
    (by intro s h; simp at h)

/-! ### Alignment preservation -/

/-- The row pass of a brush removal erases exactly the cell at index `c`
of every row. -/
theorem processRows_fst (c : Nat) : ∀ (r : Nat) (rows : List (List Cell)),
    (processRows c r rows).1 = rows.map (fun row => row.eraseIdx c) := by
  intro r rows
  induction rows generalizing r with
  | nil => rfl
  | cons row rest ih => simp [processRows, ih]

/-- One-step unfolding of the `initializeSelections` column scan. -/
theorem initSelGo_eq (c : Nat) (cols : List VAColumn)
    (rows : List (List Cell)) (sels : List Nat) :
    initSelGo c cols rows sels =
      if h : c < cols.length then
        if isBrushCol cols[c] then
          initSelGo (c + 1) (cols.eraseIdx c) (processRows c 0 rows).1
            (sels ++ (processRows c 0 rows).2)
        else
          initSelGo (c + 1) cols rows sels
      else
        (cols, rows, sels) := by
  rw [initSelGo]

/-- The column scan preserves the alignment between the column list and
the rows: if every row is as long as the column list on entry, the same
holds for results. -/
theorem initSelGo_aligned : ∀ (n c : Nat) (cols : List VAColumn)
    (rows : List (List Cell)) (sels : List Nat),
    cols.length - c ≤ n →
    (∀ row ∈ rows, row.length = cols.length) →
    ∀ row' ∈ (initSelGo c cols rows sels).2.1,
      row'.length = (initSelGo c cols rows sels).1.length := by
  intro n
  induction n with
  | zero =>
    intro c cols rows sels hn hal
    have hc : ¬c < cols.length := by omega
    rw [initSelGo_eq, dif_neg hc]
    exact hal
  | succ n ih =>
    intro c cols rows sels hn hal
    by_cases hc : c < cols.length
    · by_cases hb : isBrushCol cols[c]
      · rw [initSelGo_eq, dif_pos hc, if_pos hb]
        refine ih (c + 1) (cols.eraseIdx c) _ _ ?_ ?_
        · rw [List.length_eraseIdx, if_pos hc]
          omega
        · rw [processRows_fst]
          intro row' hrow'
          obtain ⟨row, hrow, rfl⟩ := List.mem_map.mp hrow'
          have h1 : row.length = cols.length := hal row hrow
          have h2 : c < row.length := by omega
          rw [List.length_eraseIdx, if_pos h2, List.length_eraseIdx, if_pos hc]
          omega
      · rw [initSelGo_eq, dif_pos hc, if_neg hb]
        exact ih (c + 1) cols rows sels (by omega) hal
    · rw [initSelGo_eq, dif_neg hc]
      exact hal

/-- A successful `convertGo` pass keeps the number of rows. -/
theorem convertGo_length (cols : List VAColumn) (c : Nat)
    (rows rows' : List (List Cell)) (h : convertGo c cols rows = .ok rows') :
    rows'.length = rows.length := by
  induction cols generalizing c rows with
  | nil =>
    simp only [convertGo] at h
    cases h
    rfl
  | cons col0 rest ih =>
    by_cases hty : col0.type == "date"
    · cases hcr : convertColumnRows col0.format c rows with
      | error e => simp [convertGo, hty, hcr] at h
      | ok rows1 =>
        simp only [convertGo, hty, if_true, hcr] at h
        rw [ih (c + 1) rows1 h,
          (convertColumnRows_ok col0.format c rows rows1 hcr).1]
    · simp only [convertGo, hty, if_false] at h
      exact ih (c + 1) rows h

/-- C7: when the column list's length equals every row's length before the
call, it still does after each of the four operations — `validateRoles`
and `getVAParameters` never write to the message, `initializeSelections`
removes columns and cells in lockstep, and a completed
`convertDateColumns` rewrites cells in place without changing any
length. -/
theorem c7_theorem (msg : VAMessage) (h : aligned msg) :
    (∀ (e : List String) (o : OptionalTypes),
        aligned (validateRolesCall msg e o).2)
    ∧ aligned (initializeSelections msg).2
    ∧ (∀ msg', convertDateColumns msg = .ok msg' → aligned msg')
    ∧ aligned (getVAParametersCall msg).2 := by
  refine ⟨fun e o => h, ?_, ?_, h⟩
  · intro row' hrow'
    exact initSelGo_aligned msg.columns.length 0 msg.columns msg.data []
      (by omega) h row' hrow'
  · intro msg' hok
    cases hgo : convertGo 0 msg.columns msg.data with
    | error e => rw [convertDateColumns, hgo] at hok; cases hok
    | ok data' =>
      rw [convertDateColumns, hgo] at hok
      cases hok
      intro row' hrow'
      obtain ⟨r, hr'⟩ := List.mem_iff_getElem?.mp hrow'
      have hlen := convertGo_length msg.columns 0 msg.data data' hgo
      have hrlt : r < msg.data.length := by
        have : r < data'.length := (List.getElem?_eq_some_iff.mp hr').1
        omega
      obtain ⟨row, hr⟩ : ∃ row, msg.data[r]? = some row :=
        ⟨msg.data.get ⟨r, hrlt⟩, by simp⟩
      obtain ⟨row'', hr'', hlen'', -⟩ :=
        convertGo_preserves msg.columns 0 msg.data data' hgo r row hr
      have : row'' = row' := by
        rw [hr''] at hr'
        cases hr'
        rfl
      subst this
      rw [hlen'']
      exact h row (List.getElem?_mem hr)

/-- A one-column, one-row aligned message. -/
def msgC7 : VAMessage := mkMsg [mkCol "number"] [[Cell.num 1]] none

/-- C7 witness: the aligned concrete message stays aligned through
`initializeSelections`. -/
theorem c7_witness : aligned (initializeSelections msgC7).2 :=
  (c7_theorem msgC7 (by decide)).2.1

/-! ### The selection extraction against its specification -/

/-- The two-adjacent-brush-columns message of the C2 counterexample. -/
def msgC2 : VAMessage :=
  mkMsg [mkBrushCol, mkBrushCol] [[Cell.num 1, Cell.num 1]] none

/-- C2, counterexample: on a message with two adjacent brush columns (one
row, both cells non-zero), `initializeSelections` removes only the first
brush column — the scan's index moves past the column shifted into the
removed slot — leaving one brush column in place, the row one cell long
instead of zero, and a single selection entry instead of one per brush
column. -/
theorem c2_counterexample :
    initializeSelections msgC2 = ([0], mkMsg [mkBrushCol] [[Cell.num 1]] none)
    ∧ msgC2.columns.countP (fun col => isBrushCol col) = 2
    ∧ (initializeSelections msgC2).2.columns.countP (fun col => isBrushCol col)
        = 1
    ∧ (initializeSelections msgC2).2.columns.length = 1
    ∧ (decide (msgC2.columns.length
        - msgC2.columns.countP (fun col => isBrushCol col) = 1) = false)
    ∧ (initializeSelections msgC2).1.length = 1 := by
  have hmain : initializeSelections msgC2
      = ([0], mkMsg [mkBrushCol] [[Cell.num 1]] none) := by
    simp [initializeSelections, initSelGo, processRows, msgC2, mkMsg,
      mkBrushCol, isBrushCol]
  refine ⟨hmain, by decide, ?_, ?_, by decide, ?_⟩
  · rw [hmain]; decide
  · rw [hmain]; decide
  · rw [hmain]; decide

/-- `stripRow` over an empty column list keeps the cells. -/
theorem stripRow_nil (cells : List Cell) : stripRow [] cells = cells := by
  cases cells <;> rfl

/-- `stripRow` of an empty row is empty. -/
theorem stripRow_nil_cells (cols : List VAColumn) : stripRow cols [] = [] := by
  cases cols <;> rfl

/-- `suffixSels` over an empty column list is empty. -/
theorem suffixSels_nil (rs : List (List Cell)) : suffixSels [] rs = [] := rfl

/-- The selection entries recorded while removing the brush cell at index
`c` are exactly the spec-side selected heads of the rows' suffixes from
`c`. -/
theorem processRows_snd (c : Nat) : ∀ (r : Nat) (rows : List (List Cell)),
    (processRows c r rows).2
      = selHeads r (rows.map (fun row => row.drop c)) := by
  intro r rows
  induction rows generalizing r with
  | nil => rfl
  | cons row rest ih =>
    simp only [processRows, List.map_cons, selHeads, List.head?_drop]
    rw [ih (r + 1)]

/-- Taking one position past a removal: the prefix plus the element that
shifted into the removed slot. -/
theorem eraseIdx_take_succ {α : Type} (l : List α) (c : Nat)
    (hc : c < l.length) :
    (l.eraseIdx c).take (c + 1) = l.take c ++ (l.drop (c + 1)).take 1 := by
  rw [List.eraseIdx_eq_take_drop_succ, List.take_append_eq_append_take]
  have h1 : (l.take c).length = c := by
    rw [List.length_take]; omega
  have h3 : c + 1 - (l.take c).length = 1 := by
    rw [h1]; omega
  have h2 : (l.take c).take (c + 1) = l.take c := by
    rw [List.take_take]
    congr 1
    omega
  rw [h3, h2]

/-- Dropping past the skipped position after a removal lands two positions
further in the original list. -/
theorem eraseIdx_drop_succ {α : Type} (l : List α) (c : Nat)
    (hc : c < l.length) :
    (l.eraseIdx c).drop (c + 1) = l.drop (c + 2) := by
  rw [List.eraseIdx_eq_take_drop_succ, List.drop_append_eq_append_drop]
  have h1 : (l.take c).length = c := by
    rw [List.length_take]; omega
  rw [h1]
  have h2 : (l.take c).drop (c + 1) = [] :=
    List.drop_eq_nil_of_le (by rw [h1]; omega)
  rw [h2, List.nil_append]
  have h3 : c + 1 - c = 1 := by omega
  rw [h3, List.drop_drop]

/-- A non-brush head survives the filter and the rest is filtered. -/
theorem filter_skip_head (l2 : List VAColumn)
    (hx : ∀ y ∈ l2.head?, isBrushCol y = false) :
    l2.filter (fun col => !isBrushCol col)
      = l2.take 1 ++ (l2.drop 1).filter (fun col => !isBrushCol col) := by
  cases l2 with
  | nil => rfl
  | cons x t =>
    have hxf : isBrushCol x = false := hx x rfl
    simp [List.filter_cons, hxf]

/-- A non-brush head keeps its cell and stripping continues behind it. -/
theorem stripRow_skip_head (l2 : List VAColumn) (rd : List Cell)
    (hx : ∀ y ∈ l2.head?, isBrushCol y = false) :
    stripRow l2 rd = rd.take 1 ++ stripRow (l2.drop 1) (rd.drop 1) := by
  cases l2 with
  | nil => cases rd <;> simp [stripRow_nil]
  | cons x t =>
    have hxf : isBrushCol x = false := hx x rfl
    cases rd with
    | nil => simp [stripRow_nil_cells]
    | cons e es => simp [stripRow, hxf]

/-- A non-brush head contributes no selections; the scan continues behind
it with every row suffix advanced one cell. -/
theorem suffixSels_skip_head (l2 : List VAColumn) (rows : List (List Cell))
    (m : Nat) (hx : ∀ y ∈ l2.head?, isBrushCol y = false) :
    suffixSels l2 (rows.map (fun row => row.drop m))
      = suffixSels (l2.drop 1) (rows.map (fun row => row.drop (m + 1))) := by
  cases l2 with
  | nil => simp [suffixSels_nil]
  | cons x t =>
    have hxf : isBrushCol x = false := hx x rfl
    show (if isBrushCol x then
          selHeads 0 (rows.map (fun row => row.drop m)) else [])
        ++ suffixSels t ((rows.map (fun row => row.drop m)).map
            (fun row => row.drop 1))
      = suffixSels ((x :: t).drop 1) (rows.map (fun row => row.drop (m + 1)))
    have hmap : (rows.map (fun row => row.drop m)).map (fun row => row.drop 1)
        = rows.map (fun row => row.drop (m + 1)) := by
      rw [List.map_map]
      refine List.map_congr_left ?_
      intro row _
      simp [Function.comp, List.drop_drop]
    rw [hxf, hmap]
    simp

/-- Once the scan index passes the column list, the state is exactly the
spec-side description with an empty remaining suffix. -/
theorem initSelGo_spec_stop (c : Nat) (cols : List VAColumn)
    (rows : List (List Cell)) (sels : List Nat) (hc : ¬c < cols.length) :
    (cols, rows, sels)
      = (cols.take c ++ (cols.drop c).filter (fun col => !isBrushCol col),
         rows.map (fun row => row.take c ++ stripRow (cols.drop c) (row.drop c)),
         sels ++ suffixSels (cols.drop c) (rows.map (fun row => row.drop c))) := by
  have hdrop : cols.drop c = [] := List.drop_eq_nil_of_le (by omega)
  have htake : cols.take c = cols := List.take_of_length_le (by omega)
  rw [hdrop, htake]
  have hrows : rows.map (fun row =>
      row.take c ++ stripRow [] (row.drop c)) = rows := by
    have h : ∀ row ∈ rows, row.take c ++ stripRow [] (row.drop c) = row := by
      intro row _
      rw [stripRow_nil, List.take_append_drop]
    rw [List.map_congr_left h, List.map_id']
  simp only [Prod.mk.injEq, List.filter_nil, List.append_nil, suffixSels_nil,
    hrows]

/-- The column scan of `initializeSelections`, described against the
spec-side functions: provided no brush column of the unscanned suffix is
immediately followed by another brush column, the scan keeps exactly the
non-brush columns, strips exactly the brush cells of every row, and
accumulates one selection entry per selected row per brush column. -/
theorem initSelGo_spec : ∀ (n c : Nat) (cols : List VAColumn)
    (rows : List (List Cell)) (sels : List Nat),
    cols.length - c ≤ n →
    (∀ row ∈ rows, row.length = cols.length) →
    List.Chain' (fun a b => isBrushCol a = true → isBrushCol b = false)
      (cols.drop c) →
    initSelGo c cols rows sels
      = (cols.take c ++ (cols.drop c).filter (fun col => !isBrushCol col),
         rows.map (fun row => row.take c ++ stripRow (cols.drop c) (row.drop c)),
         sels ++ suffixSels (cols.drop c) (rows.map (fun row => row.drop c))) := by
  intro n
  induction n with
  | zero =>
    intro c cols rows sels hn hal hch
    have hc : ¬c < cols.length := by omega
    rw [initSelGo_eq, dif_neg hc]
    exact initSelGo_spec_stop c cols rows sels hc
  | succ n ih =>
    intro c cols rows sels hn hal hch
    by_cases hc : c < cols.length
    · have hd1 : cols.drop c = cols[c] :: cols.drop (c + 1) :=
        List.drop_eq_getElem_cons hc
      have hgetem : cols[c]? = some cols[c] := List.getElem?_eq_getElem hc
      by_cases hb : isBrushCol cols[c]
      · -- brush column: removed, and the scan skips the shifted element
        have hhead : ∀ y ∈ (cols.drop (c + 1)).head?, isBrushCol y = false := by
          rw [hd1, List.chain'_cons'] at hch
          exact fun y hy => hch.1 y hy hb
        have hch1 : List.Chain'
            (fun a b => isBrushCol a = true → isBrushCol b = false)
            (cols.drop (c + 1)) := by
          rw [hd1] at hch
          exact hch.tail
        have hcolsDrop := eraseIdx_drop_succ cols c hc
        have hd2eq : cols.drop (c + 2) = (cols.drop (c + 1)).drop 1 := by
          rw [List.drop_drop]
        have hch2 : List.Chain'
            (fun a b => isBrushCol a = true → isBrushCol b = false)
            ((cols.eraseIdx c).drop (c + 1)) := by
          rw [hcolsDrop, hd2eq, List.drop_one]
          exact hch1.tail
        have hlen' : (cols.eraseIdx c).length = cols.length - 1 := by
          rw [List.length_eraseIdx, if_pos hc]
        have hal' : ∀ row' ∈ (processRows c 0 rows).1,
            row'.length = (cols.eraseIdx c).length := by
          rw [processRows_fst, hlen']
          intro row' hrow'
          obtain ⟨row, hrow, rfl⟩ := List.mem_map.mp hrow'
          have h1 := hal row hrow
          rw [List.length_eraseIdx, if_pos (by omega)]
          omega
        rw [initSelGo_eq, dif_pos hc, if_pos hb,
          ih (c + 1) (cols.eraseIdx c) (processRows c 0 rows).1
            (sels ++ (processRows c 0 rows).2)
            (by rw [hlen']; omega) hal' hch2]
        simp only [Prod.mk.injEq]
        refine ⟨?_, ?_, ?_⟩
        · -- columns
          rw [eraseIdx_take_succ cols c hc, hcolsDrop, hd2eq, hd1]
          simp only [List.filter_cons, hb, Bool.not_true, Bool.false_eq_true,
            if_false]
          rw [filter_skip_head (cols.drop (c + 1)) hhead, List.append_assoc]
        · -- rows
          rw [processRows_fst, List.map_map]
          refine List.map_congr_left ?_
          intro row hrow
          have hrl : row.length = cols.length := hal row hrow
          have hcr : c < row.length := by omega
          have hrd1 : row.drop c = row[c] :: row.drop (c + 1) :=
            List.drop_eq_getElem_cons hcr
          have hrd2eq : row.drop (c + 2) = (row.drop (c + 1)).drop 1 := by
            rw [List.drop_drop]
          simp only [Function.comp]
          rw [eraseIdx_take_succ row c hcr, eraseIdx_drop_succ row c hcr,
            hcolsDrop, hd1, hrd1]
          simp only [stripRow, hb, if_true]
          rw [stripRow_skip_head (cols.drop (c + 1)) (row.drop (c + 1)) hhead,
            ← hd2eq, ← hrd2eq, List.append_assoc]
        · -- selections
          rw [processRows_fst, processRows_snd, List.map_map]
          have hmap1 : rows.map ((fun row => row.drop (c + 1)) ∘
              (fun row => row.eraseIdx c)) = rows.map (fun row => row.drop (c + 2)) := by
            refine List.map_congr_left ?_
            intro row hrow
            have hrl : row.length = cols.length := hal row hrow
            exact eraseIdx_drop_succ row c (by omega)
          rw [hmap1, hcolsDrop, hd1]
          simp only [suffixSels, hb, if_true, List.map_map]
          have hmap2 : rows.map ((fun row => row.drop 1) ∘
              (fun row => row.drop c)) = rows.map (fun row => row.drop (c + 1)) := by
            refine List.map_congr_left ?_
            intro row _
            simp [Function.comp, List.drop_drop]
          rw [hmap2,
            suffixSels_skip_head (cols.drop (c + 1)) rows (c + 1) hhead,
            ← hd2eq, List.append_assoc]
      · -- non-brush column: kept, scan moves on
        have hbf : isBrushCol cols[c] = false := by
          simpa using hb
        have hch1 : List.Chain'
            (fun a b => isBrushCol a = true → isBrushCol b = false)
            (cols.drop (c + 1)) := by
          rw [hd1] at hch
          exact hch.tail
        rw [initSelGo_eq, dif_pos hc, if_neg hb,
          ih (c + 1) cols rows sels (by omega) hal hch1]
        simp only [Prod.mk.injEq]
        refine ⟨?_, ?_, ?_⟩
        · -- columns
          rw [List.take_succ, hgetem, hd1]
          simp only [List.filter_cons, hbf, Bool.not_false, if_true,
            Option.toList_some]
          rw [List.append_assoc]
          rfl
        · -- rows
          refine List.map_congr_left ?_
          intro row hrow
          have hrl : row.length = cols.length := hal row hrow
          have hcr : c < row.length := by omega
          have hrd1 : row.drop c = row[c] :: row.drop (c + 1) :=
            List.drop_eq_getElem_cons hcr
          rw [List.take_succ, List.getElem?_eq_getElem hcr, hd1, hrd1]
          simp only [stripRow, hbf, Bool.false_eq_true, if_false,
            Option.toList_some]
          rw [List.append_assoc]
          rfl
        · -- selections
          rw [hd1]
          simp only [suffixSels, hbf, Bool.false_eq_true, if_false,
            List.nil_append, List.map_map]
          have hmap2 : rows.map ((fun row => row.drop 1) ∘
              (fun row => row.drop c)) = rows.map (fun row => row.drop (c + 1)) := by
            refine List.map_congr_left ?_
            intro row _
            simp [Function.comp, List.drop_drop]
          rw [hmap2]
    · rw [initSelGo_eq, dif_neg hc]
      exact initSelGo_spec_stop c cols rows sels hc

/-- Length of the brush-free column list: one column lost per brush
column. -/
theorem filter_not_brush_length (cols : List VAColumn) :
    (cols.filter (fun col => !isBrushCol col)).length
      = cols.length - cols.countP (fun col => isBrushCol col) := by
  induction cols with
  | nil => rfl
  | cons col rest ih =>
    have hle : rest.countP (fun col => isBrushCol col) ≤ rest.length :=
      List.countP_le_length _
    by_cases hb : isBrushCol col
    · simp only [List.filter_cons, hb, Bool.not_true, Bool.false_eq_true,
        if_false, List.countP_cons, List.length_cons, hb, if_pos]
      rw [ih]
      omega
    · have hbf : isBrushCol col = false := by simpa using hb
      simp only [List.filter_cons, hbf, Bool.not_false, if_true,
        List.countP_cons, List.length_cons, Bool.false_eq_true, if_false]
      rw [ih]
      omega

/-- Length of a stripped row: one cell lost per brush column. -/
theorem stripRow_length (cols : List VAColumn) : ∀ (row : List Cell),
    row.length = cols.length →
    (stripRow cols row).length
      = cols.length - cols.countP (fun col => isBrushCol col) := by
  induction cols with
  | nil =>
    intro row h
    rw [stripRow_nil]
    simpa using h
  | cons col rest ih =>
    intro row h
    cases row with
    | nil => simp at h
    | cons cell cells =>
      have h' : cells.length = rest.length := by simpa using h
      have hle : rest.countP (fun col => isBrushCol col) ≤ rest.length :=
        List.countP_le_length _
      by_cases hb : isBrushCol col
      · have hstep : stripRow (col :: rest) (cell :: cells)
            = stripRow rest cells := by
          simp [stripRow, hb]
        rw [hstep, ih cells h']
        simp only [List.countP_cons, List.length_cons, hb, if_pos]
        omega
      · have hbf : isBrushCol col = false := by simpa using hb
        have hstep : stripRow (col :: rest) (cell :: cells)
            = cell :: stripRow rest cells := by
          simp [stripRow, hbf]
        rw [hstep]
        simp only [List.length_cons, ih cells h', List.countP_cons, hbf,
          Bool.false_eq_true, if_false]
        omega

/-- `selHeads` records one index per selected row. -/
theorem selHeads_length : ∀ (r : Nat) (rows : List (List Cell)),
    (selHeads r rows).length
      = rows.countP (fun row => row.head? != some (Cell.num 0)) := by
  intro r rows
  induction rows generalizing r with
  | nil => rfl
  | cons row rest ih =>
    by_cases hcond : (row.head? != some (Cell.num 0)) = true
    · simp [selHeads, hcond, List.countP_cons, ih (r + 1)]
    · have hcf : (row.head? != some (Cell.num 0)) = false := by
        simpa using hcond
      simp [selHeads, hcf, List.countP_cons, ih (r + 1)]

/-- The selection list is one entry per selected row per brush column. -/
theorem suffixSels_length : ∀ (cols : List VAColumn)
    (rows : List (List Cell)),
    (suffixSels cols rows).length = brushSelTotal cols rows := by
  intro cols
  induction cols with
  | nil => intro rows; rfl
  | cons col rest ih =>
    intro rows
    show ((if isBrushCol col then selHeads 0 rows else [])
        ++ suffixSels rest (rows.map (fun row => row.drop 1))).length
      = (if isBrushCol col then
          rows.countP (fun row => row.head? != some (Cell.num 0)) else 0)
        + brushSelTotal rest (rows.map (fun row => row.drop 1))
    rw [List.length_append, ih]
    by_cases hb : isBrushCol col
    · simp [hb, selHeads_length]
    · simp [hb]

/-- C2, amended: `initializeSelections` removes the brush columns its
forward scan examines, but after each removal the scan skips the column
that shifted into the removed position; provided no brush column is
immediately followed by another brush column, every brush column is
removed — the column list and each row shrink by exactly one element per
brush column and no brush column remains — and the selection list gains
exactly one entry per selected row per brush column. -/
theorem c2_theorem (msg : VAMessage) (hal : aligned msg)
    (hna : List.Chain' (fun a b => isBrushCol a = true → isBrushCol b = false)
      msg.columns) :
    (initializeSelections msg).2.columns
        = msg.columns.filter (fun col => !isBrushCol col)
    ∧ (initializeSelections msg).2.data
        = msg.data.map (fun row => stripRow msg.columns row)
    ∧ (initializeSelections msg).1 = suffixSels msg.columns msg.data
    ∧ (initializeSelections msg).2.columns.countP
        (fun col => isBrushCol col) = 0
    ∧ (initializeSelections msg).2.columns.length
        = msg.columns.length - msg.columns.countP (fun col => isBrushCol col)
    ∧ (∀ row' ∈ (initializeSelections msg).2.data,
        row'.length
          = msg.columns.length
            - msg.columns.countP (fun col => isBrushCol col))
    ∧ (initializeSelections msg).1.length
        = brushSelTotal msg.columns msg.data := by
  have hspec := initSelGo_spec msg.columns.length 0 msg.columns msg.data []
    (by omega) hal (by simpa using hna)
  simp only [List.take_zero, List.drop_zero, List.nil_append] at hspec
  rw [List.map_id'] at hspec
  have hcols : (initializeSelections msg).2.columns
      = msg.columns.filter (fun col => !isBrushCol col) := by
    simp only [initializeSelections, hspec]
  have hdata : (initializeSelections msg).2.data
      = msg.data.map (fun row => stripRow msg.columns row) := by
    simp only [initializeSelections, hspec]
  have hsels : (initializeSelections msg).1
      = suffixSels msg.columns msg.data := by
    simp only [initializeSelections, hspec]
  refine ⟨hcols, hdata, hsels, ?_, ?_, ?_, ?_⟩
  · rw [hcols]
    rw [List.countP_eq_zero]
    intro col hcol
    have := (List.mem_filter.mp hcol).2
    simp only [Bool.not_eq_true'] at this
    simp [this]
  · rw [hcols, filter_not_brush_length]
  · rw [hdata]
    intro row' hrow'
    obtain ⟨row, hrow, rfl⟩ := List.mem_map.mp hrow'
    exact stripRow_length msg.columns row (hal row hrow)
  · rw [hsels, suffixSels_length]

/-- The extractor message of the specification's own test property:
columns number and brush, rows (1,0) and (2,5). -/
def msgC2W : VAMessage :=
  mkMsg [mkCol "number", mkBrushCol]
    [[Cell.num 1, Cell.num 0], [Cell.num 2, Cell.num 5]] none

/-- C2 witness: the amended description instantiated on the spec's own
extractor example (selection list [1], one column and one cell per row
removed, no brush column left). -/
theorem c2_witness :
    (initializeSelections msgC2W).2.columns
        = msgC2W.columns.filter (fun col => !isBrushCol col)
    ∧ (initializeSelections msgC2W).2.data
        = msgC2W.data.map (fun row => stripRow msgC2W.columns row)
    ∧ (initializeSelections msgC2W).1 = suffixSels msgC2W.columns msgC2W.data
    ∧ (initializeSelections msgC2W).2.columns.countP
        (fun col => isBrushCol col) = 0
    ∧ (initializeSelections msgC2W).2.columns.length
        = msgC2W.columns.length
          - msgC2W.columns.countP (fun col => isBrushCol col)
    ∧ (∀ row' ∈ (initializeSelections msgC2W).2.data,
        row'.length
          = msgC2W.columns.length
            - msgC2W.columns.countP (fun col => isBrushCol col))
    ∧ (initializeSelections msgC2W).1.length
        = brushSelTotal msgC2W.columns msgC2W.data :=
  c2_theorem msgC2W (by decide)
    (by
      rw [show msgC2W.columns = [mkCol "number", mkBrushCol] from rfl,
        List.chain'_cons]
      exact ⟨fun h => absurd h (by decide), List.chain'_singleton _⟩)

/-! ### The debounce timer chain -/

/-- One resize-handler run from a state whose pending queue is empty or
holds exactly the tracked timer: afterwards exactly one timer is pending,
scheduled a quiet period after `t`, and it is the tracked one; no
deliveries happen and no listener is added. -/
theorem handleResize_step (t i : Nat) (w : World)
    (htr : w.pending = []
      ∨ ∃ tm, w.pending = [tm] ∧ w.timeoutID = some tm.tid) :
    ∃ tm', (handleResize t i w).pending = [tm'] ∧ tm'.fireAt = t + 25
      ∧ (handleResize t i w).timeoutID = some tm'.tid
      ∧ (handleResize t i w).deliveries = w.deliveries
      ∧ (handleResize t i w).numSetups = w.numSetups := by
  rcases htr with hp | ⟨tm, hp, hti⟩
  · cases hti : w.timeoutID with
    | none =>
      exact ⟨⟨w.nextTid, t + 25, i⟩, by simp [handleResize, hti, hp], rfl,
        by simp [handleResize, hti], by simp [handleResize, hti],
        by simp [handleResize, hti]⟩
    | some tid =>
      refine ⟨⟨w.nextTid, t + 25, i⟩, ?_, rfl, ?_, ?_, ?_⟩ <;>
        simp [handleResize, clearTimeoutW, hti, hp]
  · refine ⟨⟨w.nextTid, t + 25, i⟩, ?_, rfl, ?_, ?_, ?_⟩ <;>
      simp [handleResize, clearTimeoutW, hti, hp]

/-- Running a non-empty batch of resize handlers behaves like the last
one: exactly one pending timer, scheduled a quiet period after `t`. -/
theorem runHandlers_step (t : Nat) : ∀ (is : List Nat) (w : World),
    is ≠ [] →
    (w.pending = []
      ∨ ∃ tm, w.pending = [tm] ∧ w.timeoutID = some tm.tid) →
    ∃ tm', (runHandlers t is w).pending = [tm'] ∧ tm'.fireAt = t + 25
      ∧ (runHandlers t is w).timeoutID = some tm'.tid
      ∧ (runHandlers t is w).deliveries = w.deliveries
      ∧ (runHandlers t is w).numSetups = w.numSetups := by
  intro is
  induction is with
  | nil => intro w hne _; exact absurd rfl hne
  | cons i is ih =>
    intro w _ htr
    obtain ⟨tm1, hp1, hf1, hti1, hdel1, hns1⟩ := handleResize_step t i w htr
    cases is with
    | nil => exact ⟨tm1, hp1, hf1, hti1, hdel1, hns1⟩
    | cons j js =>
      obtain ⟨tm', hp', hf', hti', hdel', hns'⟩ :=
        ih (handleResize t i w) (by simp) (Or.inr ⟨tm1, hp1, hti1⟩)
      exact ⟨tm', hp', hf', hti',
        by rw [show runHandlers t (i :: j :: js) w
            = runHandlers t (j :: js) (handleResize t i w) from rfl,
          hdel', hdel1],
        by rw [show runHandlers t (i :: j :: js) w
            = runHandlers t (j :: js) (handleResize t i w) from rfl,
          hns', hns1]⟩

/-- A raw resize notification from a tracked state with at least one
registered listener leaves exactly one pending timer, scheduled a quiet
period after the notification. -/
theorem notifyResize_step (t : Nat) (w : World) (hk : 1 ≤ w.numSetups)
    (htr : w.pending = []
      ∨ ∃ tm, w.pending = [tm] ∧ w.timeoutID = some tm.tid) :
    ∃ tm', (notifyResize t w).pending = [tm'] ∧ tm'.fireAt = t + 25
      ∧ (notifyResize t w).timeoutID = some tm'.tid
      ∧ (notifyResize t w).deliveries = w.deliveries
      ∧ (notifyResize t w).numSetups = w.numSetups := by
  refine runHandlers_step t (List.range w.numSetups) w ?_ htr
  intro h
  rw [List.range_eq_nil] at h
  omega

/-- Advancing the clock past no due timer changes nothing. -/
theorem fireDue_skip (tcut : Nat) (w : World)
    (h : ∀ tm ∈ w.pending, ¬tm.fireAt < tcut) :
    fireDue tcut w = w := by
  unfold fireDue
  cases hp : w.pending with
  | nil =>
    simp only [fireDueList, List.append_nil, ← hp]
  | cons tm rest =>
    have hnd : ¬tm.fireAt < tcut := h tm (by rw [hp]; exact List.mem_cons_self tm rest)
    simp only [fireDueList, if_neg hnd, List.append_nil, ← hp]

/-- Letting the clock run out on a single pending timer delivers the
settled event to every listener once, at the timer's fire time. -/
theorem flushAll_single (w : World) (tm : Timer) (hp : w.pending = [tm]) :
    flushAll w
      = { w with
          pending := ([] : List Timer),
          deliveries := w.deliveries ++ settleDeliveries w.numSetups tm.fireAt } := by
  unfold flushAll
  rw [hp]
  simp [flushList]

/-- The whole burst, one notification at a time: from a tracked
one-pending-timer state, a chain of notifications each arriving inside
the previous one's quiet period ends with a single delivery round at the
last notification time plus the quiet period, and no timer pending. -/
theorem runBurst_spec : ∀ (ts : List Nat) (tprev : Nat) (w : World)
    (tm : Timer),
    w.pending = [tm] → tm.fireAt = tprev + 25 →
    w.timeoutID = some tm.tid → 1 ≤ w.numSetups →
    List.Chain' (fun a b => a ≤ b ∧ b < a + 25) (tprev :: ts) →
    (runBurst w ts).deliveries
        = w.deliveries
          ++ settleDeliveries w.numSetups (ts.getLastD tprev + 25)
    ∧ (runBurst w ts).pending = [] := by
  intro ts
  induction ts with
  | nil =>
    intro tprev w tm hp hf hti hk hch
    rw [show runBurst w [] = flushAll w from rfl, flushAll_single w tm hp, hf]
    exact ⟨rfl, rfl⟩
  | cons t' ts' ih =>
    intro tprev w tm hp hf hti hk hch
    rw [List.chain'_cons] at hch
    have hnofire : fireDue t' w = w := by
      refine fireDue_skip t' w ?_
      intro tm' htm'
      rw [hp] at htm'
      have : tm' = tm := by simpa using htm'
      subst this
      rw [hf]
      omega
    obtain ⟨tm', hp', hf', hti', hdel', hns'⟩ :=
      notifyResize_step t' w hk (Or.inr ⟨tm, hp, hti⟩)
    obtain ⟨hd, hpend⟩ := ih t' (notifyResize t' w) tm' hp' hf' hti'
      (by rw [hns']; exact hk) hch.2
    rw [show runBurst w (t' :: ts')
        = runBurst (notifyResize t' (fireDue t' w)) ts' from rfl, hnofire]
    rw [List.getLastD_cons]
    exact ⟨by rw [hd, hdel', hns'], hpend⟩

/-- `n` setup calls on the fresh module state only register listeners. -/
theorem setupN_init (n : Nat) : setupN n initWorld = ⟨none, 0, [], n, [], []⟩ := by
  induction n with
  | zero => rfl
  | succ n ih => simp [setupN, setupResizeListener, ih]

/-- C6: a burst of raw resize notifications, each arriving within the
25-unit quiet period of the previous one, produces exactly one
settled-event delivery to each of the `k` registered callbacks, fired 25
units after the last notification of the burst, with no timer left
pending (every earlier timer having been superseded). -/
theorem c6_theorem (k : Nat) (hk : 1 ≤ k) (t0 : Nat) (ts : List Nat)
    (hch : List.Chain' (fun a b => a ≤ b ∧ b < a + 25) (t0 :: ts)) :
    (runBurst (setupN k initWorld) (t0 :: ts)).deliveries
        = settleDeliveries k (ts.getLastD t0 + 25)
    ∧ (runBurst (setupN k initWorld) (t0 :: ts)).pending = [] := by
  have hw0 := setupN_init k
  have hnofire : fireDue t0 (setupN k initWorld) = setupN k initWorld := by
    refine fireDue_skip t0 _ ?_
    intro tm htm
    rw [hw0] at htm
    simp at htm
  obtain ⟨tm', hp', hf', hti', hdel', hns'⟩ :=
    notifyResize_step t0 (setupN k initWorld) (by rw [hw0]; exact hk)
      (Or.inl (by rw [hw0]))
  obtain ⟨hd, hpend⟩ := runBurst_spec ts t0 (notifyResize t0 (setupN k initWorld))
    tm' hp' hf' hti' (by rw [hns', hw0]; exact hk) hch
  rw [show runBurst (setupN k initWorld) (t0 :: ts)
      = runBurst (notifyResize t0 (fireDue t0 (setupN k initWorld))) ts
      from rfl, hnofire]
  refine ⟨?_, hpend⟩
  rw [hd, hdel', hns', hw0]
  simp

/-- C6 witness: two setup calls, three notifications at times 0, 10 and
20 (each within the quiet period of the previous): both callbacks receive
exactly one settled event, at time 45. -/
theorem c6_witness :
    (runBurst (setupN 2 initWorld) [0, 10, 20]).deliveries
        = settleDeliveries 2 (List.getLastD [10, 20] 0 + 25)
    ∧ (runBurst (setupN 2 initWorld) [0, 10, 20]).pending = [] :=
  c6_theorem 2 (by decide) 0 [10, 20]
    (by
      rw [List.chain'_cons, List.chain'_cons]
      exact ⟨by omega, by omega, List.chain'_singleton _⟩)
